import Mathlib

/-!
Verification development for the `secure-filesystem-server` MCP server
(`src/index.js`).  JavaScript strings are modelled as `List Char`; the
JavaScript string operations used by the source (`includes`, `replace`,
`split`, `join`, `trim`, `trimStart`, the `/^\s*/` leading-whitespace
match, and the `/\r\n/g` global replacement) are embedded as executable
functions below.  Filesystem state, where a claim needs it, is modelled
as an explicit map from paths to file contents, and `fs.realpath` as an
explicit resolution function supplied to the validator.
-/

deriving instance DecidableEq for Except

/-- JavaScript strings, modelled as lists of characters. -/
abbrev Str := List Char

/-- Embed a Lean string literal as a `Str`. -/
def str (s : String) : Str := s.data

/-- The backtick character (used by the diff fence). -/
def btk : Char := Char.ofNat 96

/-- The apostrophe character (used by the `$'` substitution pattern). -/
def apos : Char := Char.ofNat 39

/-- Whitespace as recognised by JavaScript `trim` / `\s`
(space, tab, LF, CR, vertical tab, form feed, NBSP, BOM). -/
def jsIsSpace (c : Char) : Bool :=
  c == ' ' || c == '\t' || c == '\n' || c == '\r' ||
  c == Char.ofNat 11 || c == Char.ofNat 12 ||
  c == Char.ofNat 0xA0 || c == Char.ofNat 0xFEFF

/-- JavaScript `String.prototype.trimStart`. -/
def trimStartJS (s : Str) : Str := s.dropWhile jsIsSpace

/-- JavaScript `String.prototype.trimEnd`. -/
def trimEndJS (s : Str) : Str := (s.reverse.dropWhile jsIsSpace).reverse

/-- JavaScript `String.prototype.trim`. -/
def trimJS (s : Str) : Str := trimEndJS (trimStartJS s)

/-- The text matched by `/^\s*/`: the longest leading whitespace run. -/
def leadingWS (s : Str) : Str := s.takeWhile jsIsSpace

/-- `normalizeLineEndings` (src/index.js:254-256):
`text.replace(/\r\n/g, '\n')`, a single left-to-right pass replacing
each `CRLF` pair by `LF` without rescanning the produced text. -/
def normalizeLineEndings : Str → Str
  | [] => []
  | [c] => [c]
  | c :: d :: t =>
    if c == '\r' && d == '\n' then '\n' :: normalizeLineEndings t
    else c :: normalizeLineEndings (d :: t)

/-- Index of the first occurrence of `needle` in `hay`
(JavaScript `String.prototype.indexOf`, which also underlies
`includes` and string-pattern `replace`). -/
def findFirst (hay needle : Str) : Option Nat :=
  if needle.isPrefixOf hay then some 0
  else
    match hay with
    | [] => none
    | _ :: t => (findFirst t needle).map (fun n => n + 1)

/-- JavaScript `String.prototype.includes`. -/
def containsSub (hay needle : Str) : Bool := (findFirst hay needle).isSome

/-- JavaScript `String.split` with a one-character separator. -/
def splitOnChar (sep : Char) : Str → List Str
  | [] => [[]]
  | c :: t =>
    if c == sep then [] :: splitOnChar sep t
    else
      match splitOnChar sep t with
      | [] => [[c]]
      | s :: ss => (c :: s) :: ss

example : splitOnChar '\n' (str "a\nb") = [str "a", str "b"] := by decide
example : splitOnChar '\n' [] = [[]] := by decide
example : normalizeLineEndings (str "a\r\nb\r") = str "a\nb\r" := by decide
example : containsSub (str "abc") (str "bc") = true := by decide
example : findFirst (str "xaya") (str "a") = some 1 := by decide

/-- `GetSubstitution` of ECMA-262 for `String.prototype.replace` with a
string search pattern (so there are no capture groups): in the
replacement text `$$` yields `$`, `$&` yields the matched text, a
`$`-backtick pair yields the text before the match, `$` followed by an
apostrophe yields the text after the match, and any other `$` (including
`$` followed by a digit, since there are no captures) is literal. -/
def getSubstitution (matched before after : Str) : Str → Str
  | [] => []
  | c :: t =>
    if c == '$' then
      match t with
      | [] => ['$']
      | d :: t2 =>
        if d == '$' then '$' :: getSubstitution matched before after t2
        else if d == '&' then matched ++ getSubstitution matched before after t2
        else if d == btk then before ++ getSubstitution matched before after t2
        else if d == apos then after ++ getSubstitution matched before after t2
        else '$' :: getSubstitution matched before after (d :: t2)
    else c :: getSubstitution matched before after t

/-- JavaScript `String.prototype.replace` with a string search pattern:
replace the first occurrence of `searchStr`, passing the replacement
text through `getSubstitution`. -/
def jsReplace (s searchStr repl : Str) : Str :=
  match findFirst s searchStr with
  | none => s
  | some i =>
    s.take i ++
    getSubstitution searchStr (s.take i) (s.drop (i + searchStr.length)) repl ++
    s.drop (i + searchStr.length)

/-- Whether `s` contains a `$` character. -/
def hasDollar : Str → Bool
  | [] => false
  | c :: t => c == '$' || hasDollar t

/-- A replacement text with no `$` character, on which `getSubstitution`
is the identity. -/
def noDollar (s : Str) : Bool := !(hasDollar s)

/-- Every carriage return in `s` is immediately followed by a line feed
(the usual shape of a CRLF-file). -/
def crlfOnly : Str → Bool
  | [] => true
  | [c] => !(c == '\r')
  | c :: d :: t =>
    if c == '\r' then (d == '\n') && crlfOnly t
    else crlfOnly (d :: t)

/-- Whether `s` contains a carriage return at all. -/
def hasCR : Str → Bool
  | [] => false
  | c :: t => c == '\r' || hasCR t

/-- Accumulator loop for `maxRun`. -/
def maxRunAux (c : Char) : Str → Nat → Nat → Nat
  | [], cur, best => max cur best
  | x :: t, cur, best =>
    if x == c then maxRunAux c t (cur + 1) best
    else maxRunAux c t 0 (max cur best)

/-- Length of the longest run of the character `c` in `s`. -/
def maxRun (c : Char) (s : Str) : Nat := maxRunAux c s 0 0

example : jsReplace (str "ab") (str "a") (str "X") = str "Xb" := by decide
example : jsReplace (str "ab") (str "a") (str "$$") = str "$b" := by decide
example : maxRun btk (str "x``y```z") = 3 := by decide
example : crlfOnly (str "a\r\nb") = true := by decide
example : crlfOnly (str "a\rb") = false := by decide

/-!
## PathSandbox (`validatePath`, src/index.js:49-86)

Paths handed to the validator are modelled as already expanded,
absolute and normalized (`expandHome` / `path.resolve` /
`path.normalize` are identities on such inputs, and the allowed
directories are stored normalized at startup, src/index.js:32).
`fs.realpath` is modelled as an explicit resolution function
`rp : Str → Option Str`: `some real` when the OS resolves the path
(following symlinks) to `real`, `none` when resolution fails
(e.g. the target does not exist).
-/

/-- `path.dirname` for absolute POSIX paths: strip the last segment. -/
def dirname (p : Str) : Str :=
  let t := ((p.reverse.dropWhile (fun c => !(c == '/'))).drop 1).reverse
  if t.isEmpty then ['/'] else t

/-- JavaScript `String.prototype.startsWith`, the containment test the
source applies between an allowed directory and a path
(src/index.js:56,64,76): plain string-prefix comparison. -/
def dirContains (dir p : Str) : Bool := dir.isPrefixOf p

/-- The body of the inner `try` of `validatePath` (src/index.js:73-81):
resolve the real path of the parent directory and require it to be
string-prefix-contained in an allowed directory; on success return the
original absolute path. The error value distinguishes the denial throw
from a resolution failure. -/
def parentStep (allowed : List Str) (rp : Str → Option Str) (p : Str) :
    Except Str Str :=
  match rp (dirname p) with
  | none => Except.error (str "ENOENT")
  | some rpar =>
    if allowed.any (fun d => dirContains d rpar) then Except.ok p
    else Except.error (str "Access denied - parent directory outside allowed directories")

/-- The `catch`-wrapped parent check of `validatePath`
(src/index.js:71-84): any failure inside the inner `try` — including
the parent-outside-allowed-directories denial throw — is caught and
reported as `Parent directory does not exist`. -/
def validateParent (allowed : List Str) (rp : Str → Option Str) (p : Str) :
    Except Str Str :=
  match parentStep allowed rp p with
  | Except.ok r => Except.ok r
  | Except.error _ =>
    Except.error (str "Parent directory does not exist: " ++ dirname p)

/-- The body of the outer `try` of `validatePath` (src/index.js:61-69):
resolve the real (symlink-followed) path and require it to be contained
in an allowed directory, throwing the symlink denial otherwise. -/
def realpathStep (allowed : List Str) (rp : Str → Option Str) (p : Str) :
    Except Str Str :=
  match rp p with
  | none => Except.error (str "ENOENT")
  | some real =>
    if allowed.any (fun d => dirContains d real) then Except.ok real
    else Except.error (str "Access denied - symlink target outside allowed directories")

/-- `validatePath` (src/index.js:49-86). The first containment check is
string-prefix based; the outer `catch` (src/index.js:70) catches every
failure of the `try` body — a `realpath` failure, but equally the
symlink-target denial thrown at src/index.js:66 — and falls through to
the parent-directory check. -/
def validatePath (allowed : List Str) (rp : Str → Option Str) (p : Str) :
    Except Str Str :=
  if allowed.any (fun d => dirContains d p) then
    match realpathStep allowed rp p with
    | Except.ok r => Except.ok r
    | Except.error _ => validateParent allowed rp p
  else
    Except.error (str "Access denied - path outside allowed directories: " ++ p)

/-!
## copy_file and move_file handlers (src/index.js:933-969, 1107-1118)

Filesystem contents are modelled as a map from (validated) paths to
file contents; both handlers are modelled after path validation, on the
validated source and destination. Node's `fs.copyFile` creates the
destination, and `fs.rename` follows `rename(2)`: an existing file at
the destination path is silently replaced.
-/

/-- The `copy_file` handler (src/index.js:933-968), file case: probe the
destination with `fs.access`; if it exists, throw
`Destination already exists` (rethrown by the catch since the message
contains `already exists`); otherwise copy the source. -/
def copyFileHandler (fs : Str → Option Str) (src dst : Str) :
    (Str → Option Str) × Except Str Unit :=
  if (fs dst).isSome then
    (fs, Except.error (str "Destination already exists: " ++ dst))
  else
    match fs src with
    | some c => (fun q => if q = dst then some c else fs q, Except.ok ())
    | none => (fs, Except.error (str "ENOENT"))

/-- The `move_file` handler (src/index.js:1107-1118): no destination
existence check at all — it calls `fs.rename` directly, which replaces
an existing destination file. -/
def moveFileHandler (fs : Str → Option Str) (src dst : Str) :
    (Str → Option Str) × Except Str Unit :=
  match fs src with
  | some c =>
    (fun q => if q = dst then some c else if q = src then none else fs q,
     Except.ok ())
  | none => (fs, Except.error (str "ENOENT"))

example : dirname (str "/data/link") = str "/data" := by decide
example : dirname (str "/data") = str "/" := by decide

/-!
## PatchEngine (`applyFileEdits`, src/index.js:263-324)
-/

/-- One edit operation: `{oldText, newText}` (src/index.js:164-167). -/
structure Edit where
  oldText : Str
  newText : Str
deriving DecidableEq

/-- Whether the window of `oldLines.length` content lines starting at
`i` matches `oldLines` up to `trim` on both sides (src/index.js:281-286). -/
def windowMatches (cls ols : List Str) (i : Nat) : Bool :=
  (((cls.drop i).take ols.length).zip ols).all
    (fun p => trimJS p.2 == trimJS p.1)

/-- Scan for the first matching window, `fuel` counting the remaining
candidate start positions (the source loop runs
`i = 0 .. contentLines.length - oldLines.length`, src/index.js:280). -/
def findWindowAux (cls ols : List Str) : Nat → Nat → Option Nat
  | _, 0 => none
  | i, fuel + 1 =>
    if windowMatches cls ols i then some i
    else findWindowAux cls ols (i + 1) fuel

/-- First window of content lines matching the old lines, if any. When
`oldLines.length > contentLines.length` the source loop body never runs
(the JavaScript bound is a negative number). -/
def findWindow (cls ols : List Str) : Option Nat :=
  if ols.length ≤ cls.length then
    findWindowAux cls ols 0 (cls.length - ols.length + 1)
  else none

/-- The per-line replacement of the matched window
(src/index.js:290-301): line `0` gets the window's original
indentation; a later line whose paired old line and own text both have
leading whitespace gets the original indentation plus
`Math.max(0, newIndent.length - oldIndent.length)` spaces; any other
line is used unmodified. -/
def lineTransform (ols : List Str) (origIndent : Str) (j : Nat) (l : Str) : Str :=
  if j = 0 then origIndent ++ trimStartJS l
  else
    let oldIndent := leadingWS (ols.getD j [])
    let newIndent := leadingWS l
    if !oldIndent.isEmpty && !newIndent.isEmpty then
      origIndent ++
      List.replicate (Int.toNat (max 0 ((newIndent.length : Int) - (oldIndent.length : Int)))) ' ' ++
      trimStartJS l
    else l

/-- Indexed map of `lineTransform` over the new-text lines
(`normalizedNew.split('\n').map((line, j) => ...)`, src/index.js:290). -/
def buildNewLinesAux (ols : List Str) (origIndent : Str) (j : Nat) :
    List Str → List Str
  | [] => []
  | l :: rest =>
    lineTransform ols origIndent j l :: buildNewLinesAux ols origIndent (j + 1) rest

/-- The replacement lines spliced in place of the matched window. -/
def buildNewLines (ols : List Str) (origIndent : Str) (newLines : List Str) :
    List Str :=
  buildNewLinesAux ols origIndent 0 newLines

/-- One edit applied to the in-memory buffer (src/index.js:268-310):
first the exact-substring strategy (`includes` then string `replace`),
then the line-window strategy, else the
`Could not find exact match for edit` failure carrying the edit's raw
`oldText`. -/
def applyEdit (buf : Str) (e : Edit) : Except Str Str :=
  let nOld := normalizeLineEndings e.oldText
  let nNew := normalizeLineEndings e.newText
  if containsSub buf nOld then Except.ok (jsReplace buf nOld nNew)
  else
    let ols := splitOnChar '\n' nOld
    let cls := splitOnChar '\n' buf
    match findWindow cls ols with
    | some i =>
      let origIndent := leadingWS (cls.getD i [])
      let newLines := buildNewLines ols origIndent (splitOnChar '\n' nNew)
      Except.ok (List.intercalate ['\n']
        (cls.take i ++ newLines ++ cls.drop (i + ols.length)))
    | none =>
      Except.error (str "Could not find exact match for edit:\n" ++ e.oldText)

/-- Sequential application of the edit batch to the buffer
(src/index.js:267-311); the first failing edit aborts the batch. -/
def applyEdits (buf : Str) : List Edit → Except Str Str
  | [] => Except.ok buf
  | e :: es =>
    match applyEdit buf e with
    | Except.ok b => applyEdits b es
    | Except.error m => Except.error m

/-- The `while (diff.includes(backticks))` loop of src/index.js:315-318,
fuelled: each iteration increments the candidate fence width, and a
width exceeding the diff's length can never occur in the diff, so
`diff.length + 1` iterations always suffice (proved below). -/
def numBackticksGo (diff : Str) : Nat → Nat → Nat
  | 0, n => n
  | fuel + 1, n =>
    if containsSub diff (List.replicate n btk) then numBackticksGo diff fuel (n + 1)
    else n

/-- Fence width for a diff: start at 3 backticks and grow while the
diff still contains a run of that many backticks (src/index.js:315-318). -/
def numBackticksFor (diff : Str) : Nat := numBackticksGo diff (diff.length + 1) 3

/-- `applyFileEdits` (src/index.js:263-324) over an in-memory content
string. The external `createTwoFilesPatch` of the `diff` package is a
parameter `diffFn`; `createUnifiedDiff` (src/index.js:257-262)
normalizes both sides before calling it. The result carries the fenced
diff and, unless `dryRun`, the content to be written back. -/
def applyFileEdits (diffFn : Str → Str → Str) (content0 : Str)
    (edits : List Edit) (dryRun : Bool) : Except Str (Str × Option Str) :=
  let content := normalizeLineEndings content0
  match applyEdits content edits with
  | Except.error m => Except.error m
  | Except.ok modified =>
    let diff := diffFn (normalizeLineEndings content) (normalizeLineEndings modified)
    let fence := List.replicate (numBackticksFor diff) btk
    Except.ok (fence ++ str "diff\n" ++ diff ++ fence ++ str "\n\n",
      if dryRun then none else some modified)

/-- The on-disk effect of one `edit_file` call: the file content after
the call, paired with the handler's result. The write at
src/index.js:320-322 happens only on success with `dryRun` false; any
thrown failure leaves the file untouched. -/
def editFileOnDisk (diffFn : Str → Str → Str) (disk : Str)
    (edits : List Edit) (dryRun : Bool) : Str × Except Str Str :=
  match applyFileEdits diffFn disk edits dryRun with
  | Except.error m => (disk, Except.error m)
  | Except.ok (fmt, none) => (disk, Except.ok fmt)
  | Except.ok (fmt, some w) => (w, Except.ok fmt)

example : applyEdit (str "x\nab\ny") (Edit.mk (str "ab") (str "c")) =
    Except.ok (str "x\nc\ny") := by decide
example : applyEdit (str "\tfoo\n\tbar") (Edit.mk (str "  foo\n  bar") (str "  foo2\n  bar")) =
    Except.ok (str "\tfoo2\n\tbar") := by decide
example : applyEdit (str "a") (Edit.mk (str "zz") (str "c")) =
    Except.error (str "Could not find exact match for edit:\nzz") := by decide
example : numBackticksFor (str "x```y") = 4 := by decide
example : numBackticksFor (str "xy") = 3 := by decide

/-!
## searchFiles exclusion (src/index.js:228-236)

For each entry the handler computes the path relative to the search
root and excludes the entry when some exclude pattern matches it:
`pattern.includes('*') ? pattern : `**/pattern/**`` is handed to
`minimatch(relativePath, globPattern, { dot: true })`.

The `minimatch` library is external; its matcher is modelled here for
the pattern fragment the exclusion code can build out of
wildcard-restricted patterns: slash-separated segments that are either
a `**` globstar (matching zero or more path segments; a trailing
globstar matches every remaining suffix, with `dot: true` imposing no
dot-file restriction) or a segment of literal characters and `?`
wildcards (each `?` matching exactly one character). Patterns using
other `minimatch` syntax (character classes, braces, extglobs, `*`
inside a segment) are outside the modelled fragment, and the theorems
below restrict their pattern arguments accordingly. -/

/-- One slash-separated part of a glob pattern. -/
inductive MPart where
  | globstar : MPart
  | seg : Str → MPart
deriving DecidableEq

/-- A non-globstar pattern segment against one path segment: literal
characters match themselves, `?` matches any single character. -/
def segMatches : Str → Str → Bool
  | [], [] => true
  | pc :: pt, fc :: ft => (pc == '?' || pc == fc) && segMatches pt ft
  | _, _ => false

/-- The segment-level matcher of `minimatch` (its `matchOne`), fuelled:
every recursive call shrinks the combined length of pattern parts and
path segments, so `ps.length + fs.length + 1` steps always suffice. -/
def matchPartsGo : Nat → List MPart → List Str → Bool
  | 0, _, _ => false
  | fuel + 1, ps, fs =>
    match ps, fs with
    | [], [] => true
    | [], _ :: _ => false
    | MPart.globstar :: rest, fs =>
      match rest with
      | [] => true
      | _ :: _ =>
        matchPartsGo fuel rest fs ||
        (match fs with
         | [] => false
         | _ :: ft => matchPartsGo fuel (MPart.globstar :: rest) ft)
    | MPart.seg _ :: _, [] => false
    | MPart.seg c :: rest, f :: ft => segMatches c f && matchPartsGo fuel rest ft

/-- Glob parts against path segments. -/
def matchParts (ps : List MPart) (fs : List Str) : Bool :=
  matchPartsGo (ps.length + fs.length + 1) ps fs

/-- Parse a glob pattern: split on `/`; a part that is exactly `**` is
a globstar, anything else a plain segment pattern. -/
def parseGlob (pat : Str) : List MPart :=
  (splitOnChar '/' pat).map
    (fun part => if part = str "**" then MPart.globstar else MPart.seg part)

/-- The modelled `minimatch(relativePath, globPattern, { dot: true })`
call of src/index.js:232. -/
def minimatchModel (pat rel : Str) : Bool :=
  matchParts (parseGlob pat) (splitOnChar '/' rel)

/-- JavaScript `pattern.includes('*')`: whether the pattern contains a
`*` character. -/
def hasStar : Str → Bool
  | [] => false
  | c :: t => c == '*' || hasStar t

/-- The pattern expansion of src/index.js:231: a pattern containing no
`*` is wrapped as `**/pattern/**`, any other pattern is used as is. -/
def globPatternFor (p : Str) : Str :=
  if hasStar p then p else str "**/" ++ p ++ str "/**"

/-- Whether one exclude pattern excludes an entry with the given
relative path (the body of the `some` at src/index.js:230-233). -/
def shouldExcludeOne (pat rel : Str) : Bool :=
  minimatchModel (globPatternFor pat) rel

/-- Characters with special meaning to `minimatch` (wildcards, classes,
braces, extglob and escape syntax). -/
def isGlobSpecial (c : Char) : Bool :=
  c == '*' || c == '?' || c == '[' || c == ']' || c == '{' || c == '}' ||
  c == '(' || c == ')' || c == '!' || c == '+' || c == '@' || c == '|' ||
  c == '\\'

example : shouldExcludeOne (str "node_modules") (str "node_modules") = true := by decide
example : shouldExcludeOne (str "node_modules") (str "a/node_modules/b.txt") = true := by decide
example : shouldExcludeOne (str "node_modules") (str "a/b.txt") = false := by decide
example : shouldExcludeOne (str "a?b") (str "sub/axb") = true := by decide
example : minimatchModel (str "a?b") (str "sub/axb") = false := by decide

/-!
## Supporting lemmas
-/

theorem isPrefixOf_length : ∀ p s : Str, p.isPrefixOf s = true → p.length ≤ s.length
  | [], _, _ => Nat.zero_le _
  | _ :: _, [], h => by simp [List.isPrefixOf] at h
  | a :: p, b :: s, h => by
    simp only [List.isPrefixOf, Bool.and_eq_true] at h
    simpa [Nat.succ_le_succ_iff] using isPrefixOf_length p s h.2

theorem findFirst_spec : ∀ (hay needle : Str) (i : Nat),
    findFirst hay needle = some i →
    needle.isPrefixOf (hay.drop i) = true ∧
      ∀ j, j < i → needle.isPrefixOf (hay.drop j) = false := by
  intro hay
  induction hay with
  | nil =>
    intro needle i h
    unfold findFirst at h
    split at h
    · next hp =>
      cases h
      exact ⟨hp, fun j hj => absurd hj (Nat.not_lt_zero j)⟩
    · simp at h
  | cons a t ih =>
    intro needle i h
    unfold findFirst at h
    split at h
    · next hp =>
      cases h
      exact ⟨hp, fun j hj => absurd hj (Nat.not_lt_zero j)⟩
    · next hp =>
      rw [Option.map_eq_some'] at h
      obtain ⟨k, hk, rfl⟩ := h
      obtain ⟨h1, h2⟩ := ih needle k hk
      refine ⟨h1, ?_⟩
      intro j hj
      cases j with
      | zero => simpa using Bool.eq_false_iff.mpr hp
      | succ j2 => exact h2 j2 (Nat.lt_of_succ_lt_succ hj)

theorem containsSub_length (hay needle : Str) (h : containsSub hay needle = true) :
    needle.length ≤ hay.length := by
  unfold containsSub at h
  rw [Option.isSome_iff_exists] at h
  obtain ⟨i, hi⟩ := h
  have h1 := (findFirst_spec hay needle i hi).1
  have h2 := isPrefixOf_length _ _ h1
  calc needle.length ≤ (hay.drop i).length := h2
    _ ≤ hay.length := by simp [List.length_drop]

theorem getSubstitution_noDollar (matched before after : Str) :
    ∀ r : Str, noDollar r = true → getSubstitution matched before after r = r := by
  intro r
  induction r with
  | nil => intro _; rfl
  | cons c t ih =>
    intro h
    simp only [noDollar, hasDollar, Bool.not_eq_true', Bool.or_eq_false_iff] at h
    unfold getSubstitution
    rw [h.1]
    simp only [Bool.false_eq_true, if_false]
    rw [ih (by simp [noDollar, h.2])]

theorem crlf_norm : ∀ s : Str, crlfOnly s = true → hasCR (normalizeLineEndings s) = false
  | [] => fun _ => rfl
  | [c] => fun h => by
    simp only [crlfOnly, Bool.not_eq_true'] at h
    simp [normalizeLineEndings, hasCR, h]
  | c :: d :: t => fun h => by
    unfold crlfOnly at h
    unfold normalizeLineEndings
    cases hc : c == '\r' with
    | false =>
      rw [hc] at h
      simp only [Bool.false_eq_true, if_false] at h
      have ih := crlf_norm (d :: t) h
      simp [hasCR, hc, ih]
    | true =>
      rw [hc] at h
      simp only [if_true] at h
      rw [Bool.and_eq_true] at h
      have ih := crlf_norm t h.2
      simp [hasCR, h.1, ih]

theorem applyEdits_append (xs : List Edit) : ∀ (b : Str) (ys : List Edit),
    applyEdits b (xs ++ ys) =
      match applyEdits b xs with
      | Except.ok b2 => applyEdits b2 ys
      | Except.error m => Except.error m := by
  induction xs with
  | nil => intro b ys; simp [applyEdits]
  | cons e es ih =>
    intro b ys
    simp only [List.cons_append, applyEdits]
    cases h : applyEdit b e with
    | ok b2 => simp [ih]
    | error m => simp

theorem numBackticksGo_ge (diff : Str) :
    ∀ fuel n, n ≤ numBackticksGo diff fuel n := by
  intro fuel
  induction fuel with
  | zero => intro n; simp [numBackticksGo]
  | succ fuel ih =>
    intro n
    unfold numBackticksGo
    split
    · exact Nat.le_trans (Nat.le_succ n) (ih (n + 1))
    · exact Nat.le_refl n

theorem numBackticksGo_not_contains (diff : Str) :
    ∀ fuel n, diff.length < fuel + n →
      containsSub diff (List.replicate (numBackticksGo diff fuel n) btk) = false := by
  intro fuel
  induction fuel with
  | zero =>
    intro n hn
    simp only [numBackticksGo]
    cases hc : containsSub diff (List.replicate n btk) with
    | false => rfl
    | true =>
      have := containsSub_length _ _ hc
      rw [List.length_replicate] at this
      omega
  | succ fuel ih =>
    intro n hn
    unfold numBackticksGo
    split
    · exact ih (n + 1) (by omega)
    · next hc => exact Bool.eq_false_iff.mpr hc

theorem numBackticksGo_min (diff : Str) :
    ∀ fuel n m, n ≤ m → m < numBackticksGo diff fuel n →
      containsSub diff (List.replicate m btk) = true := by
  intro fuel
  induction fuel with
  | zero =>
    intro n m hnm hm
    simp only [numBackticksGo] at hm
    exact absurd hm (Nat.not_lt.mpr hnm)
  | succ fuel ih =>
    intro n m hnm hm
    unfold numBackticksGo at hm
    split at hm
    · next hc =>
      rcases Nat.eq_or_lt_of_le hnm with rfl | hlt
      · exact hc
      · exact ih (n + 1) m hlt hm
    · exact absurd hm (Nat.not_lt.mpr hnm)

theorem buildNewLinesAux_get (ols : List Str) (origIndent : Str) :
    ∀ (lines : List Str) (j0 k : Nat),
      (buildNewLinesAux ols origIndent j0 lines).get? k =
        (lines.get? k).map (lineTransform ols origIndent (j0 + k)) := by
  intro lines
  induction lines with
  | nil => intro j0 k; simp [buildNewLinesAux]
  | cons l rest ih =>
    intro j0 k
    cases k with
    | zero => simp [buildNewLinesAux]
    | succ k2 =>
      simp only [buildNewLinesAux, List.get?]
      have hidx : j0 + 1 + k2 = j0 + (k2 + 1) := by omega
      rw [ih (j0 + 1) k2, hidx]

theorem segMatches_literal : ∀ p f : Str,
    p.all (fun c => !(c == '?')) = true → (segMatches p f = true ↔ p = f) := by
  intro p
  induction p with
  | nil =>
    intro f _
    cases f with
    | nil => simp [segMatches]
    | cons fc ft => simp [segMatches]
  | cons pc pt ih =>
    intro f h
    simp only [List.all_cons, Bool.and_eq_true, Bool.not_eq_true'] at h
    cases f with
    | nil => simp [segMatches]
    | cons fc ft =>
      simp only [segMatches, Bool.and_eq_true, Bool.or_eq_true, h.1,
        Bool.false_eq_true, false_or]
      rw [ih ft h.2]
      simp [List.cons_eq_cons]

theorem matchParts_anywhere (p : Str) :
    ∀ fuel (fs : List Str), fs.length + 3 ≤ fuel →
      matchPartsGo fuel [MPart.globstar, MPart.seg p, MPart.globstar] fs =
        fs.any (fun f => segMatches p f) := by
  intro fuel
  induction fuel with
  | zero => intro fs h; omega
  | succ fuel ih =>
    intro fs h
    have hA : matchPartsGo fuel [MPart.seg p, MPart.globstar] fs =
        match fs with
        | [] => false
        | f :: _ => segMatches p f := by
      cases fs with
      | nil =>
        obtain ⟨fuel2, rfl⟩ : ∃ k, fuel = k + 1 := ⟨fuel - 1, by omega⟩
        simp [matchPartsGo]
      | cons f ft =>
        obtain ⟨fuel2, rfl⟩ : ∃ k, fuel = k + 1 := ⟨fuel - 1, by omega⟩
        simp only [matchPartsGo]
        obtain ⟨fuel3, rfl⟩ : ∃ k, fuel2 = k + 1 := ⟨fuel2 - 1, by simp at h; omega⟩
        simp [matchPartsGo]
    cases fs with
    | nil => simp [matchPartsGo, hA]
    | cons f ft =>
      simp only [matchPartsGo, hA]
      rw [ih ft (by simp at h ⊢; omega)]
      simp [List.any_cons]

theorem splitOnChar_sep_append (sep : Char) :
    ∀ (a rest : Str), a.all (fun c => !(c == sep)) = true →
      splitOnChar sep (a ++ sep :: rest) = a :: splitOnChar sep rest := by
  intro a
  induction a with
  | nil =>
    intro rest _
    simp [splitOnChar]
  | cons c t ih =>
    intro rest h
    simp only [List.all_cons, Bool.and_eq_true, Bool.not_eq_true'] at h
    simp only [List.cons_append, splitOnChar, h.1, Bool.false_eq_true, if_false,
      List.append_eq]
    rw [ih rest h.2]

theorem parseGlob_wrap (p : Str) (hslash : p.all (fun c => !(c == '/')) = true)
    (hne : p ≠ str "**") :
    parseGlob (str "**/" ++ p ++ str "/**") =
      [MPart.globstar, MPart.seg p, MPart.globstar] := by
  have h1 : str "**/" ++ p ++ str "/**" = str "**" ++ '/' :: (p ++ '/' :: str "**") := by
    simp [str, List.append_assoc]
  rw [h1]
  unfold parseGlob
  rw [splitOnChar_sep_append '/' (str "**") (p ++ '/' :: str "**") (by decide)]
  rw [splitOnChar_sep_append '/' p (str "**") hslash]
  have h2 : splitOnChar '/' (str "**") = [str "**"] := by decide
  rw [h2]
  simp [hne]

theorem specialFree_char (c : Char) (h : (!(isGlobSpecial c || c == '/')) = true) :
    (c == '*') = false ∧ (c == '?') = false ∧ (c == '/') = false := by
  simp only [Bool.not_eq_true', Bool.or_eq_false_iff, isGlobSpecial] at h
  refine ⟨?_, ?_, ?_⟩ <;> tauto

theorem specialFree_no_star : ∀ p : Str,
    p.all (fun c => !(isGlobSpecial c || c == '/')) = true → hasStar p = false := by
  intro p
  induction p with
  | nil => intro _; rfl
  | cons c t ih =>
    intro h
    simp only [List.all_cons, Bool.and_eq_true] at h
    have hc := (specialFree_char c h.1).1
    simp [hasStar, hc, ih h.2]

theorem specialFree_no_qmark : ∀ p : Str,
    p.all (fun c => !(isGlobSpecial c || c == '/')) = true →
    p.all (fun c => !(c == '?')) = true := by
  intro p
  induction p with
  | nil => intro _; rfl
  | cons c t ih =>
    intro h
    simp only [List.all_cons, Bool.and_eq_true] at h ⊢
    exact ⟨by simp [(specialFree_char c h.1).2.1], ih h.2⟩

theorem specialFree_no_slash : ∀ p : Str,
    p.all (fun c => !(isGlobSpecial c || c == '/')) = true →
    p.all (fun c => !(c == '/')) = true := by
  intro p
  induction p with
  | nil => intro _; rfl
  | cons c t ih =>
    intro h
    simp only [List.all_cons, Bool.and_eq_true] at h ⊢
    exact ⟨by simp [(specialFree_char c h.1).2.2], ih h.2⟩





/-!
## Claim theorems
-/

/-- Resolution function witnessing a symlink escape: `/data/link` is a
symlink whose real target is `/etc/passwd`; its parent `/data` is a
real directory. -/
def rpC1 : Str → Option Str := fun q =>
  if q = str "/data/link" then some (str "/etc/passwd")
  else if q = str "/data" then some (str "/data")
  else none

/-- C1: claimed, validation of a symlink inside an allowed root whose
resolved target lies outside every allowed root must fail with
`AccessDenied`. In the code the symlink denial thrown at
src/index.js:66 is swallowed by the surrounding `catch`
(src/index.js:70), which falls through to the parent-directory check;
the symlink's parent `/data` resolves inside the allowed root, so the
validator returns the symlink's literal path as validated. -/
theorem validatePath_symlink_escape_eval :
    validatePath [str "/data"] rpC1 (str "/data/link") =
      Except.ok (str "/data/link") := by decide

/-- Resolution function for an ordinary, fully-resolved filesystem:
every path is its own real path. -/
def rpC2 : Str → Option Str := fun q => some q

/-- C2: claimed, containment of the canonicalized path in an allowed
root is segment-aware, so the root `/data` must reject the sibling
`/data2`. The code compares with `String.prototype.startsWith`
(src/index.js:56,64), a plain string-prefix test, so `/data2/secret`
is admitted by the allowed root `/data` and validation succeeds. -/
theorem validatePath_prefix_sibling_eval :
    validatePath [str "/data"] rpC2 (str "/data2/secret") =
      Except.ok (str "/data2/secret") := by decide

/-- A filesystem with a source file `/r/a` (content `A`) and an
existing destination file `/r/b` (content `B`). -/
def fsC3 : Str → Option Str := fun p =>
  if p = str "/r/a" then some (str "A")
  else if p = str "/r/b" then some (str "B")
  else none

/-- C3: claimed, both `copy_file` and `move_file` fail with
`AlreadyExists` on an existing destination and never overwrite it.
The `copy_file` handler does check (`fs.access` then throw,
src/index.js:943-951) and leaves the destination intact, but the
`move_file` handler (src/index.js:1107-1118) performs `fs.rename`
without any existence check, succeeding and replacing the destination
file's content. -/
theorem copy_move_destination_eval :
    (copyFileHandler fsC3 (str "/r/a") (str "/r/b")).2 =
      Except.error (str "Destination already exists: /r/b") ∧
    (copyFileHandler fsC3 (str "/r/a") (str "/r/b")).1 (str "/r/b") =
      some (str "B") ∧
    (moveFileHandler fsC3 (str "/r/a") (str "/r/b")).2 = Except.ok () ∧
    (moveFileHandler fsC3 (str "/r/a") (str "/r/b")).1 (str "/r/b") =
      some (str "A") := by
  refine ⟨by decide, by decide, by decide, by decide⟩

/-- C9: with `dryRun = true` the file content on disk is unchanged,
whether the batch succeeds or fails: the only write in `applyFileEdits`
is guarded by `if (!dryRun)` (src/index.js:320-322). -/
theorem dryRun_no_write (diffFn : Str → Str → Str) (disk : Str)
    (edits : List Edit) :
    (editFileOnDisk diffFn disk edits true).1 = disk := by
  unfold editFileOnDisk applyFileEdits
  cases h : applyEdits (normalizeLineEndings disk) edits with
  | error m => simp [h]
  | ok m => simp [h]

/-- C10: with `dryRun = false` and a successful batch, the content
written back is the CRLF-to-LF normalized original with the edits
applied (the buffer is initialized from
`normalizeLineEndings(await fs.readFile(...))`, src/index.js:265, and
that buffer is what the write at src/index.js:321 stores); in
particular, for a file whose every carriage return belongs to a CRLF
pair, the normalized content contains no carriage return at all. -/
theorem write_normalized_content (diffFn : Str → Str → Str) (disk : Str)
    (edits : List Edit) (m : Str)
    (h : applyEdits (normalizeLineEndings disk) edits = Except.ok m) :
    (editFileOnDisk diffFn disk edits false).1 = m ∧
    (crlfOnly disk = true → hasCR (normalizeLineEndings disk) = false) := by
  constructor
  · unfold editFileOnDisk applyFileEdits
    simp [h]
  · intro hc
    exact crlf_norm disk hc

/-- C10 witness: editing one line of a CRLF file writes back the whole
file with bare LF line endings. -/
theorem write_normalized_content_witness :
    (editFileOnDisk (fun _ _ => []) (str "a\r\nb\r\nc")
        [Edit.mk (str "b") (str "B")] false).1 = str "a\nB\nc" ∧
    hasCR (normalizeLineEndings (str "a\r\nb\r\nc")) = false := by
  refine ⟨?_, ?_⟩
  · exact (write_normalized_content (fun _ _ => []) (str "a\r\nb\r\nc")
      [Edit.mk (str "b") (str "B")] (str "a\nB\nc") (by decide)).1
  · exact (write_normalized_content (fun _ _ => []) (str "a\r\nb\r\nc")
      [Edit.mk (str "b") (str "B")] (str "a\nB\nc") (by decide)).2 (by decide)

/-- C4: when an edit matches by neither strategy (its normalized old
text is not a substring of the buffer and no trim-equal line window
exists), after the earlier edits of the batch applied cleanly, the
whole call fails with the `Could not find exact match for edit` error
naming that edit's raw `oldText`, and the file on disk is unchanged
whatever `dryRun` is — the throw at src/index.js:309 happens before the
write at src/index.js:321. -/
theorem applyFileEdits_editNotFound_atomic
    (diffFn : Str → Str → Str) (disk : Str) (dryRun : Bool)
    (pre post : List Edit) (e : Edit) (b : Str)
    (h1 : applyEdits (normalizeLineEndings disk) pre = Except.ok b)
    (h2 : containsSub b (normalizeLineEndings e.oldText) = false)
    (h3 : findWindow (splitOnChar '\n' b)
        (splitOnChar '\n' (normalizeLineEndings e.oldText)) = none) :
    editFileOnDisk diffFn disk (pre ++ e :: post) dryRun =
      (disk, Except.error
        (str "Could not find exact match for edit:\n" ++ e.oldText)) := by
  have hEdit : applyEdit b e = Except.error
      (str "Could not find exact match for edit:\n" ++ e.oldText) := by
    unfold applyEdit
    simp [h2, h3]
  have hAll : applyEdits (normalizeLineEndings disk) (pre ++ e :: post) =
      Except.error (str "Could not find exact match for edit:\n" ++ e.oldText) := by
    rw [applyEdits_append, h1]
    simp [applyEdits, hEdit]
  unfold editFileOnDisk applyFileEdits
  simp [hAll]

/-- C4 witness: a batch whose first edit applies and whose second edit
matches nothing leaves the file unchanged and reports the second
edit's old text. -/
theorem applyFileEdits_editNotFound_atomic_witness :
    editFileOnDisk (fun _ _ => []) (str "hello\nworld")
        [Edit.mk (str "hello") (str "HELLO"), Edit.mk (str "nope") (str "x")]
        false =
      (str "hello\nworld",
       Except.error (str "Could not find exact match for edit:\nnope")) :=
  applyFileEdits_editNotFound_atomic (fun _ _ => []) (str "hello\nworld") false
    [Edit.mk (str "hello") (str "HELLO")] [] (Edit.mk (str "nope") (str "x"))
    (str "HELLO\nworld") (by decide) (by decide) (by decide)

/-- C5 counterexample: the exact-substring strategy does not splice
`newText` in verbatim for every value of `newText`. It calls
JavaScript `String.prototype.replace` (src/index.js:273), whose
replacement argument is subject to `$`-substitution: replacing `a` by
`$$` in `ab` yields `$b`, not the `$$b` the claim predicts. -/
theorem exact_replace_dollar_cex :
    containsSub (str "ab") (normalizeLineEndings (str "a")) = true ∧
    applyEdit (str "ab") (Edit.mk (str "a") (str "$$")) =
      Except.ok (str "$b") ∧
    str "$b" ≠ str "$$b" := by
  refine ⟨by decide, by decide, by decide⟩

/-- C5 (amended): when the normalized old text occurs in the buffer,
the exact-substring strategy rewrites the buffer to the prefix before
the first occurrence, then the `$`-substituted new text (per
JavaScript `replace` semantics), then the remainder; whenever the new
text contains no `$` this is exactly prefix ++ newText ++ remainder.
The occurrence used is the leftmost one. -/
theorem exact_replace_first_occurrence (buf : Str) (e : Edit)
    (h : containsSub buf (normalizeLineEndings e.oldText) = true) :
    ∃ i, findFirst buf (normalizeLineEndings e.oldText) = some i ∧
      (normalizeLineEndings e.oldText).isPrefixOf (buf.drop i) = true ∧
      (∀ j, j < i →
        (normalizeLineEndings e.oldText).isPrefixOf (buf.drop j) = false) ∧
      applyEdit buf e = Except.ok
        (buf.take i ++
         getSubstitution (normalizeLineEndings e.oldText) (buf.take i)
           (buf.drop (i + (normalizeLineEndings e.oldText).length))
           (normalizeLineEndings e.newText) ++
         buf.drop (i + (normalizeLineEndings e.oldText).length)) ∧
      (noDollar (normalizeLineEndings e.newText) = true →
        applyEdit buf e = Except.ok
          (buf.take i ++ normalizeLineEndings e.newText ++
           buf.drop (i + (normalizeLineEndings e.oldText).length))) := by
  have hs : (findFirst buf (normalizeLineEndings e.oldText)).isSome = true := h
  rw [Option.isSome_iff_exists] at hs
  obtain ⟨i, hi⟩ := hs
  obtain ⟨hpre, hleft⟩ := findFirst_spec buf (normalizeLineEndings e.oldText) i hi
  have happ : applyEdit buf e = Except.ok
      (jsReplace buf (normalizeLineEndings e.oldText)
        (normalizeLineEndings e.newText)) := by
    unfold applyEdit
    simp [h]
  have hrep : jsReplace buf (normalizeLineEndings e.oldText)
      (normalizeLineEndings e.newText) =
      buf.take i ++
      getSubstitution (normalizeLineEndings e.oldText) (buf.take i)
        (buf.drop (i + (normalizeLineEndings e.oldText).length))
        (normalizeLineEndings e.newText) ++
      buf.drop (i + (normalizeLineEndings e.oldText).length) := by
    unfold jsReplace
    rw [hi]
  refine ⟨i, hi, hpre, hleft, by rw [happ, hrep], ?_⟩
  intro hnd
  rw [happ, hrep, getSubstitution_noDollar _ _ _ _ hnd]

/-- C5 witness: replacing `a` by `b` in `xay` splices at the first
occurrence, index 1. -/
theorem exact_replace_first_occurrence_witness :
    ∃ i, findFirst (str "xay") (normalizeLineEndings (str "a")) = some i ∧
      (normalizeLineEndings (str "a")).isPrefixOf ((str "xay").drop i) = true ∧
      (∀ j, j < i →
        (normalizeLineEndings (str "a")).isPrefixOf ((str "xay").drop j) = false) ∧
      applyEdit (str "xay") (Edit.mk (str "a") (str "b")) = Except.ok
        ((str "xay").take i ++
         getSubstitution (normalizeLineEndings (str "a")) ((str "xay").take i)
           ((str "xay").drop (i + (normalizeLineEndings (str "a")).length))
           (normalizeLineEndings (str "b")) ++
         (str "xay").drop (i + (normalizeLineEndings (str "a")).length)) ∧
      (noDollar (normalizeLineEndings (str "b")) = true →
        applyEdit (str "xay") (Edit.mk (str "a") (str "b")) = Except.ok
          ((str "xay").take i ++ normalizeLineEndings (str "b") ++
           (str "xay").drop (i + (normalizeLineEndings (str "a")).length))) :=
  exact_replace_first_occurrence (str "xay") (Edit.mk (str "a") (str "b"))
    (by decide)

theorem isEmpty_false_of_ne_nil {l : List Char} (h : l ≠ []) :
    l.isEmpty = false := by
  cases l with
  | nil => exact absurd rfl h
  | cons a t => rfl

/-- C6 counterexample: a negative indentation difference is not applied.
The window `["  a", "      b"]` matches old lines `["a", "   b"]`; the
new second line `" b"` has indentation 1 against the old line's 3, so
the claim predicts indentation `2 + (1 - 3) = 0`, i.e. output
`"  a\nb"`; the code computes
`' '.repeat(Math.max(0, -2))` (src/index.js:298) and emits `"  b"`,
keeping the window's original two spaces. -/
theorem window_indent_clamp_cex :
    containsSub (str "  a\n      b") (normalizeLineEndings (str "a\n   b")) = false ∧
    applyEdit (str "  a\n      b") (Edit.mk (str "a\n   b") (str "a\n b")) =
      Except.ok (str "  a\n  b") ∧
    str "  a\n  b" ≠ str "  a\nb" := by
  refine ⟨by decide, by decide, by decide⟩

/-- C6 (amended): on the first matching window, the spliced result uses
the rebuilt lines, where the first replacement line inherits the
window's original leading indentation, and every later replacement line
whose paired old line and own text both carry leading whitespace gets
the original indentation followed by
`Math.max(0, newIndent.length - oldIndent.length)` spaces — the signed
difference clamped below at zero, so a replacement line never dedents
below the window's original indentation. -/
theorem window_indent_formula (buf : Str) (e : Edit) (i : Nat)
    (hex : containsSub buf (normalizeLineEndings e.oldText) = false)
    (hw : findWindow (splitOnChar '\n' buf)
        (splitOnChar '\n' (normalizeLineEndings e.oldText)) = some i) :
    applyEdit buf e = Except.ok (List.intercalate ['\n']
      ((splitOnChar '\n' buf).take i ++
       buildNewLines (splitOnChar '\n' (normalizeLineEndings e.oldText))
         (leadingWS ((splitOnChar '\n' buf).getD i []))
         (splitOnChar '\n' (normalizeLineEndings e.newText)) ++
       (splitOnChar '\n' buf).drop
         (i + (splitOnChar '\n' (normalizeLineEndings e.oldText)).length))) ∧
    (∀ l, (splitOnChar '\n' (normalizeLineEndings e.newText)).get? 0 = some l →
      (buildNewLines (splitOnChar '\n' (normalizeLineEndings e.oldText))
        (leadingWS ((splitOnChar '\n' buf).getD i []))
        (splitOnChar '\n' (normalizeLineEndings e.newText))).get? 0 =
        some (leadingWS ((splitOnChar '\n' buf).getD i []) ++ trimStartJS l)) ∧
    (∀ j l, 0 < j →
      (splitOnChar '\n' (normalizeLineEndings e.newText)).get? j = some l →
      leadingWS ((splitOnChar '\n' (normalizeLineEndings e.oldText)).getD j []) ≠ [] →
      leadingWS l ≠ [] →
      (buildNewLines (splitOnChar '\n' (normalizeLineEndings e.oldText))
        (leadingWS ((splitOnChar '\n' buf).getD i []))
        (splitOnChar '\n' (normalizeLineEndings e.newText))).get? j =
        some (leadingWS ((splitOnChar '\n' buf).getD i []) ++
          List.replicate (Int.toNat (max 0 (((leadingWS l).length : Int) -
            ((leadingWS ((splitOnChar '\n' (normalizeLineEndings e.oldText)).getD j
              [])).length : Int)))) ' ' ++
          trimStartJS l)) := by
  refine ⟨?_, ?_, ?_⟩
  · unfold applyEdit
    simp [hex, hw]
  · intro l hl
    unfold buildNewLines
    rw [buildNewLinesAux_get, hl]
    simp [lineTransform]
  · intro j l hj hl ho hn
    unfold buildNewLines
    rw [buildNewLinesAux_get, hl]
    have hj0 : j ≠ 0 := Nat.pos_iff_ne_zero.mp hj
    have ho2 := isEmpty_false_of_ne_nil ho
    have hn2 := isEmpty_false_of_ne_nil hn
    simp [lineTransform, hj0, ho2, hn2, ho, hn]
    intro hcontra
    rw [List.getD_eq_getElem?_getD] at ho
    exact absurd hcontra ho

/-- C6 witness: at the clamp input, the second replacement line keeps
the window's original two-space indentation. -/
theorem window_indent_formula_witness :
    (buildNewLines (splitOnChar '\n' (normalizeLineEndings (str "a\n   b")))
      (leadingWS ((splitOnChar '\n' (str "  a\n      b")).getD 0 []))
      (splitOnChar '\n' (normalizeLineEndings (str "a\n b")))).get? 1 =
      some (str "  b") := by
  have h := (window_indent_formula (str "  a\n      b")
      (Edit.mk (str "a\n   b") (str "a\n b")) 0 (by decide) (by decide)).2.2
      1 (str " b") (by decide) (by decide) (by decide) (by decide)
  exact h

/-- C7 counterexample: the fence width is not `longest run + 1` for
every diff. The loop of src/index.js:315-318 starts at 3, so for a
diff containing no backtick at all (longest run 0) the fence has
width 3, not 1. The empty batch on `a` succeeds and, with a diff
rendering containing no backtick, is wrapped in a 3-backtick fence. -/
theorem fence_length_cex :
    numBackticksFor (str "x") = 3 ∧
    maxRun btk (str "x") + 1 = 1 ∧
    applyFileEdits (fun _ _ => str "x") (str "a") [] false =
      Except.ok (str "```diff\nx```\n\n", some (str "a")) ∧
    (3 : Nat) ≠ 1 := by
  refine ⟨by decide, by decide, by decide, by decide⟩

/-- C7 (amended): the fence width chosen for a diff is the least
`n ≥ 3` such that the diff contains no run of `n` consecutive
backticks — equivalently `max 3 (longest backtick run + 1)` — so the
fence itself never occurs inside the diff and cannot be terminated
early; and every successful `applyFileEdits` call returns its diff
wrapped in a fence of exactly that width. -/
theorem fence_length_minimal (d : Str) :
    3 ≤ numBackticksFor d ∧
    containsSub d (List.replicate (numBackticksFor d) btk) = false ∧
    (∀ m, 3 ≤ m → m < numBackticksFor d →
      containsSub d (List.replicate m btk) = true) ∧
    (∀ (diffFn : Str → Str → Str) (content : Str) (edits : List Edit)
        (dryRun : Bool) (fmt : Str) (w : Option Str),
      applyFileEdits diffFn content edits dryRun = Except.ok (fmt, w) →
      ∃ diffText, fmt =
        List.replicate (numBackticksFor diffText) btk ++ str "diff\n" ++
        diffText ++ List.replicate (numBackticksFor diffText) btk ++ str "\n\n") := by
  refine ⟨numBackticksGo_ge d (d.length + 1) 3,
    numBackticksGo_not_contains d (d.length + 1) 3 (by omega),
    fun m h3 hm => numBackticksGo_min d (d.length + 1) 3 m h3 hm, ?_⟩
  intro diffFn content edits dryRun fmt w happ
  unfold applyFileEdits at happ
  cases he : applyEdits (normalizeLineEndings content) edits with
  | error m =>
    simp only [he] at happ
    exact absurd happ (by simp)
  | ok modified =>
    simp only [he, Except.ok.injEq, Prod.mk.injEq] at happ
    exact ⟨diffFn (normalizeLineEndings (normalizeLineEndings content))
      (normalizeLineEndings modified), happ.1.symm⟩

/-- C7 witness: for the diff `x```y` (longest run 3) the fence width is
4, that fence does not occur in the diff, and the 3-backtick run does. -/
theorem fence_length_minimal_witness :
    3 ≤ numBackticksFor (str "x```y") ∧
    containsSub (str "x```y")
      (List.replicate (numBackticksFor (str "x```y")) btk) = false ∧
    containsSub (str "x```y") (List.replicate 3 btk) = true := by
  refine ⟨(fence_length_minimal (str "x```y")).1,
    (fence_length_minimal (str "x```y")).2.1,
    (fence_length_minimal (str "x```y")).2.2.1 3 (by decide) (by decide)⟩

/-- C8 counterexample: the pattern `a?b` contains no `*`, so the code
expands it to `**/a?b/**`; but `?` is still a `minimatch` wildcard, so
the entry `sub/axb` is excluded although no directory segment of its
relative path equals `a?b` — refuting the claimed equivalence for
star-free patterns; and evaluating `a?b` directly as a glob against
the relative path (the claim's reading for wildcard patterns) does not
match, so the claim fails under that reading too. -/
theorem exclude_qmark_cex :
    hasStar (str "a?b") = false ∧
    shouldExcludeOne (str "a?b") (str "sub/axb") = true ∧
    ¬(str "a?b" ∈ splitOnChar '/' (str "sub/axb")) ∧
    minimatchModel (str "a?b") (str "sub/axb") = false := by
  refine ⟨by decide, by decide, by decide, by decide⟩

/-- C8 (amended): for an exclude pattern free of every glob
metacharacter (and of `/`), an entry is excluded exactly when its path
relative to the search root has a directory segment equal to the
pattern; only a pattern containing `*` is passed to the matcher
unchanged — a pattern free of `*` but containing other metacharacters
such as `?` is still wrapped as `**/pattern/**` with those
metacharacters active. -/
theorem exclude_literal_segment_iff :
    (∀ p rel : Str, p ≠ [] →
      p.all (fun c => !(isGlobSpecial c || c == '/')) = true →
      (shouldExcludeOne p rel = true ↔ p ∈ splitOnChar '/' rel)) ∧
    (∀ q : Str, hasStar q = true → globPatternFor q = q) := by
  constructor
  · intro p rel hne hfree
    have hstar := specialFree_no_star p hfree
    have hq := specialFree_no_qmark p hfree
    have hsl := specialFree_no_slash p hfree
    have hne2 : p ≠ str "**" := by
      intro hp
      rw [hp] at hstar
      exact absurd hstar (by decide)
    unfold shouldExcludeOne minimatchModel globPatternFor
    rw [hstar]
    simp only [Bool.false_eq_true, if_false]
    rw [parseGlob_wrap p hsl hne2]
    unfold matchParts
    have hrw := matchParts_anywhere p
      ([MPart.globstar, MPart.seg p, MPart.globstar].length +
        (splitOnChar '/' rel).length + 1)
      (splitOnChar '/' rel) (by simp; omega)
    rw [hrw]
    rw [List.any_eq_true]
    constructor
    · rintro ⟨f, hf, hseg⟩
      rw [segMatches_literal p f hq] at hseg
      rw [hseg]
      exact hf
    · intro hp
      exact ⟨p, hp, (segMatches_literal p p hq).mpr rfl⟩
  · intro q hq
    unfold globPatternFor
    rw [hq]
    simp

/-- C8 witness: the metacharacter-free pattern `node_modules` excludes
`a/node_modules/b.txt`, whose relative path contains that segment. -/
theorem exclude_literal_segment_iff_witness :
    shouldExcludeOne (str "node_modules") (str "a/node_modules/b.txt") = true :=
  (exclude_literal_segment_iff.1 (str "node_modules")
    (str "a/node_modules/b.txt") (by decide) (by decide)).mpr (by decide)
